import Mathlib

/-!
Shallow embedding of a Go leveled-logging package: a rotating file sink
(FileWriter), a level-gated Logger with per-level dispatch handles, and the
logfmt value formatter (escaping and thousands grouping).  File contents and
diagnostics are modelled explicitly: bytes at the configured path, the
contents of the renamed rotation files, and the diagnostic lines the code
prints with fmt.Printf.
-/

/-- A directory entry as returned by the OS directory listing: the file name
and whether the entry is a regular file. -/
structure DirEntry where
  name : String
  regular : Bool
deriving DecidableEq, Repr

/-- State of the rotating file sink.  Field size is the tracked byte counter,
maxSize the configured bound in bytes (0 means unbounded), file the open OS
handle (some b, where b records whether the OS-level handle has already been
closed), live the bytes currently stored at the configured path, rotated the
contents of the renamed rotation files (most recent first), console the
diagnostics printed with fmt.Printf, and chPending the single-slot retention
wake-up channel. -/
structure FileWriter where
  size : Nat
  maxSize : Nat
  file : Option Bool
  live : List Nat
  rotated : List (List Nat)
  console : List String
  chPending : Bool
deriving DecidableEq, Repr

/-- FileWriter.rotate: when a file handle is present, sync and close it (best
effort), rename the live file by appending a timestamp suffix, and signal the
retention channel without blocking; then reopen a file at the original path
and reset the size counter from the Stat size of the reopened file.  The
parameter ok says whether reopening (openFile) succeeds; the rename is
modelled as succeeding and sync/close errors are ignored, exactly as the
source ignores them.  Returns the new state and an error flag. -/
def FileWriter.rotate (ok : Bool) (w : FileWriter) : FileWriter × Bool :=
  let w1 :=
    if w.file.isSome then
      { w with file := none, rotated := w.live :: w.rotated, live := [], chPending := true }
    else w
  if ok then
    ({ w1 with file := some false, size := w1.live.length }, false)
  else (w1, true)

/-- The unconditional tail of FileWriter.Write: append the bytes to the file
at the path and, when size tracking is enabled (maxSize > 0), add the number
of bytes written to the size counter.  The file write itself is modelled as
succeeding, which is the case the claims are about. -/
def FileWriter.writeBody (w : FileWriter) (p : List Nat) : FileWriter × Nat × Bool :=
  let w2 := { w with live := w.live ++ p }
  (if 0 < w2.maxSize then { w2 with size := w2.size + p.length } else w2, p.length, false)

/-- FileWriter.Write: when a size bound is configured and writing p would
push the counter past it, rotate first; if that rotation fails, print a
diagnostic with fmt.Printf and return byte count 0 together with the error.
Otherwise append and track the size.  rotateOk says whether a triggered
rotation succeeds. -/
def FileWriter.Write (rotateOk : Bool) (w : FileWriter) (p : List Nat) : FileWriter × Nat × Bool :=
  if 0 < w.maxSize ∧ w.maxSize < w.size + p.length then
    match w.rotate rotateOk with
    | (w1, true) => ({ w1 with console := w1.console ++ ["Failed to rotate log file"] }, 0, true)
    | (w1, false) => w1.writeBody p
  else
    w.writeBody p

/-- FileWriter.Close: reads the file handle; when a handle is present it
calls Close on the OS file, which marks the handle closed and returns an
error exactly when the handle was already closed (os.File.Close reports
ErrClosed on a repeated call).  The writer never clears its file field. -/
def FileWriter.Close (w : FileWriter) : FileWriter × Bool :=
  match w.file with
  | none => (w, false)
  | some closed => ({ w with file := some true }, closed)

/-- Does a directory entry count for retention: a regular file whose name is
prefixed by the base filename of the sink.  strings.HasPrefix is modelled as
the character-list prefix test, which agrees with the byte-level test on
UTF-8 strings. -/
def matchOk (base : String) (e : DirEntry) : Bool :=
  e.regular && base.data.isPrefixOf e.name.data

/-- One pass of the retention sweep body over the directory listing in the
iteration order of the source (from the last listing index down to 0):
count the matching entries and remove every matching entry whose running
count exceeds maxFiles, unless its name equals the base filename.  Returns
the surviving entries in iteration order. -/
def removeLogsRev (base : String) (maxFiles : Nat) : Nat → List DirEntry → List DirEntry
  | _, [] => []
  | count, e :: rest =>
    if matchOk base e then
      if maxFiles < count + 1 ∧ e.name ≠ base then removeLogsRev base maxFiles (count + 1) rest
      else e :: removeLogsRev base maxFiles (count + 1) rest
    else e :: removeLogsRev base maxFiles count rest

/-- FileWriter.removeLogs, one wake-up of the sweep: the listing is walked in
reverse order with count starting at 0; the result is the directory content
(in listing order) after the removals of that sweep. -/
def removeLogs (base : String) (maxFiles : Nat) (list : List DirEntry) : List DirEntry :=
  (removeLogsRev base maxFiles 0 list.reverse).reverse

/-- Kinds of per-level dispatch handles: an active handle formats with the
given level label and writes; the inert handle accepts its arguments and
discards them. -/
inductive HandleKind where
  | active (label : String) : HandleKind
  | inert : HandleKind
deriving DecidableEq, Repr

/-- Logger state: the severity threshold (a Go int), the sink modelled as the
list of byte chunks passed to writer.Write in order, and the two per-level
dispatch tables (Trace..Error and TraceIf..ErrorIf). -/
structure Logger where
  level : Int
  sink : List String
  handles : List HandleKind
  handleIfs : List HandleKind
deriving DecidableEq, Repr

/-- Level name table from the source; note that the VERBOSE level prints as
VERBO. -/
def Levels : List String := ["TRACE", "DEBUG", "VERBO", "INFO", "WARN", "ERROR"]

/-- stringifyLevel: index into the Levels table.  The source indexes the Go
array directly and would panic out of range; the model totalises with the
empty string, and every use in the embedded operations is in range. -/
def stringifyLevel (level : Int) : String :=
  Levels.getD level.toNat ""

/-- Logger.Write: the lowest-level primitive; under the mutex it writes the
bytes and then, optionally, a one-byte newline chunk. -/
def Logger.Write (l : Logger) (bytes : String) (newline : Bool) : Logger :=
  { l with sink := l.sink ++ [bytes] ++ if newline then ["\n"] else [] }

/-- Logger.Output: a raw string with a custom level, gated by the threshold,
written with a trailing newline. -/
def Logger.Output (l : Logger) (level : Int) (msg : String) : Logger :=
  if level < l.level then l else l.Write msg true

/-- The key/value pair loop shared by Format and Logger.write: for indices
1, 3, 5, ... below the argument count, append tab, formatted key, equals
sign, formatted value.  A trailing unpaired argument is left to the caller.
fv is the FormatValue hook, kept abstract; argument values are opaque. -/
def pairsLoop (fv : String → String) : String → List String → String
  | msg, k :: v :: rest => pairsLoop fv (msg ++ "\t" ++ fv k ++ "=" ++ fv v) rest
  | msg, _ => msg

/-- Format: the key/value assembly of the source; after the pair loop, an
odd-length argument list appends tab, formatted trailing key and a bare
equals sign. -/
def Format (fv : String → String) (msg : String) (args : List String) : String :=
  let m := pairsLoop fv msg args
  if args.length % 2 = 1 then m ++ "\t" ++ fv (args.getLast?.getD "") ++ "=" else m

/-- Left-justified padding to width 5, the %-5s verb used for level labels. -/
def pad5 (s : String) : String :=
  s ++ String.mk (List.replicate (5 - s.length) ' ')

/-- The line assembled by Logger.write: level label padded to 5, bracketed
timestamp, message with the key/value pairs, a trailing unpaired key when
the argument count is odd, and the final newline.  now stands for the
formatted time.Now() value. -/
def logLine (fv : String → String) (now levelStr msg : String) (args : List String) : String :=
  let m := pairsLoop fv msg args
  if args.length % 2 = 1 then
    pad5 levelStr ++ "[" ++ now ++ "] " ++ m ++ "\t" ++ fv (args.getLast?.getD "") ++ "=" ++ "\n"
  else
    pad5 levelStr ++ "[" ++ now ++ "] " ++ m ++ "\n"

/-- Logger.write: assemble the line and write it as one chunk under the
mutex. -/
def Logger.write (fv : String → String) (now : String) (l : Logger) (levelStr msg : String)
    (args : List String) : Logger :=
  { l with sink := l.sink ++ [logLine fv now levelStr msg args] }

/-- Logger.Log: gated by the threshold, then Logger.write with the level
label. -/
def Logger.Log (fv : String → String) (now : String) (l : Logger) (level : Int) (msg : String)
    (args : List String) : Logger :=
  if level < l.level then l else Logger.write fv now l (stringifyLevel level) msg args

/-- Logger.Logf: gated, prefixes the level label and timestamp to the format
string and applies the printf substitution to the whole prefixed string,
then writes with a trailing newline.  sub is the fmt.Sprintf substitution
with the call arguments already fixed, kept abstract. -/
def Logger.Logf (sub : String → String) (now : String) (l : Logger) (level : Int)
    (msg : String) : Logger :=
  if level < l.level then l
  else l.Write (sub (pad5 (stringifyLevel level) ++ "[" ++ now ++ "] " ++ msg)) true

/-- Logger.Println: gated, builds the prefix then appends tab plus formatted
value for every argument, and writes with a trailing newline. -/
def Logger.Println (fv : String → String) (now : String) (l : Logger) (level : Int)
    (args : List String) : Logger :=
  if level < l.level then l
  else l.Write (args.foldl (fun m a => m ++ "\t" ++ fv a) (pad5 (stringifyLevel level) ++ "[" ++ now ++ "]")) true

/-- The payload chosen by Json and Dump: the marshalled bytes on success, the
text of the marshal error otherwise. -/
def pick : Except String String → String
  | .ok b => b
  | .error e => e

/-- Logger.Json: gated, writes the marshal outcome (json.Marshal is kept
abstract as an Except value) with a trailing newline. -/
def Logger.Json (l : Logger) (level : Int) (m : Except String String) : Logger :=
  if level < l.level then l else l.Write (pick m) true

/-- Logger.Dump: gated, writes the indented-marshal outcome
(json.MarshalIndent kept abstract as an Except value) with a trailing
newline. -/
def Logger.Dump (l : Logger) (level : Int) (m : Except String String) : Logger :=
  if level < l.level then l else l.Write (pick m) true

/-- Logger.SetLevel: an out-of-range target is replaced by INFO (3) after
emitting the diagnostic line through Logger.Output at ERROR (5); then the
level is stored and both dispatch tables are rebuilt, level i getting the
active handle exactly when i is at least the stored level. -/
def Logger.SetLevel (l : Logger) (target : Int) : Logger :=
  let q :=
    if target < 0 ∨ 5 < target then
      ((3 : Int), l.Output 5 "Invalid log level, will use INFO by default.")
    else (target, l)
  { q.2 with
    level := q.1,
    handles := (List.range 6).map
      (fun i : Nat => if q.1 ≤ (i : Int) then HandleKind.active (stringifyLevel i) else HandleKind.inert),
    handleIfs := (List.range 6).map
      (fun i : Nat => if q.1 ≤ (i : Int) then HandleKind.active (stringifyLevel i) else HandleKind.inert) }

/-- A string is newline-free. -/
def nlFree (s : String) : Prop := '\n' ∉ s.data

instance (s : String) : Decidable (nlFree s) :=
  inferInstanceAs (Decidable ('\n' ∉ s.data))

/-- A byte string forming exactly one line: it contains a single newline and
that newline is its last character. -/
def oneLine (s : String) : Prop :=
  s.data.count '\n' = 1 ∧ s.data.getLast? = some '\n'

instance (s : String) : Decidable (oneLine s) :=
  inferInstanceAs (Decidable (s.data.count '\n' = 1 ∧ s.data.getLast? = some '\n'))

/-- The bytes a call appended to the sink: the concatenation of the chunks
beyond those already present in the starting state. -/
def flushed (l l2 : Logger) : String :=
  String.join (l2.sink.drop l.sink.length)

/-- One hex digit, lowercase, as used by the standard-library quoting. -/
def hexDigit (n : Nat) : Char :=
  if n < 10 then Char.ofNat (48 + n) else Char.ofNat (87 + n)

/-- Escape of one rune inside a quoted string.  Modelled from the standard
library strconv.Quote: quote and backslash are backslash-escaped, printable
ASCII is kept raw, the named control escapes follow, other ASCII bytes get a
two-digit hex escape and runes above ASCII a unicode escape.  (Go prints
printable runes above ASCII raw; the model escapes them.  The repository
source only decides whether to quote, so the claims are unaffected.) -/
def quoteEsc (c : Char) : List Char :=
  if c = '"' then ['\\', '"']
  else if c = '\\' then ['\\', '\\']
  else if 32 ≤ c.toNat ∧ c.toNat ≤ 126 then [c]
  else if c.toNat = 7 then ['\\', 'a']
  else if c.toNat = 8 then ['\\', 'b']
  else if c.toNat = 12 then ['\\', 'f']
  else if c = '\n' then ['\\', 'n']
  else if c.toNat = 13 then ['\\', 'r']
  else if c = '\t' then ['\\', 't']
  else if c.toNat = 11 then ['\\', 'v']
  else if c.toNat < 128 then
    ['\\', 'x', hexDigit (c.toNat / 16), hexDigit (c.toNat % 16)]
  else
    ['\\', 'u', hexDigit (c.toNat / 4096 % 16), hexDigit (c.toNat / 256 % 16),
     hexDigit (c.toNat / 16 % 16), hexDigit (c.toNat % 16)]

/-- strconv.Quote, modelled from the standard library: a double quote, the
escaped runes, a closing double quote. -/
def goQuote (s : String) : String :=
  ⟨'"' :: s.data.foldr (fun c acc => quoteEsc c ++ acc) ['"']⟩

/-- escapeString from the source: quote whenever some rune is at most the
double quote (0x22), above tilde (0x7E), or an equals sign; otherwise return
the string unchanged. -/
def escapeString (s : String) : String :=
  if s.data.any (fun r => r ≤ '"' ∨ '~' < r ∨ r = '=') then goQuote s else s

/-- The decimal digit character for a value below ten. -/
def digitChar (n : Nat) : Char := Char.ofNat (48 + n)

/-- The decimal digits of a number, least significant first; empty for 0. -/
def digitsLsd (n : Nat) : List Char :=
  if h : n = 0 then [] else digitChar (n % 10) :: digitsLsd (n / 10)
decreasing_by exact Nat.div_lt_self (Nat.pos_of_ne_zero h) (by decide)

/-- Plain decimal rendering of a natural number. -/
def natStr (n : Nat) : String :=
  if n = 0 then "0" else ⟨(digitsLsd n).reverse⟩

/-- strconv.Itoa, modelled from the standard library: plain decimal with a
leading minus sign for negative values. -/
def intStr (i : Int) : String :=
  if i < 0 then "-" ++ natStr i.natAbs else natStr i.natAbs

/-- The buffer-filling loop of formatLogfmtUint64, written as a recursion
that prepends to the accumulator exactly as the source writes the buffer
right to left: while the remaining value is positive, after every third
digit a comma is emitted (without consuming a digit), otherwise the next
least significant digit is emitted. -/
def fmtLoop (n comma : Nat) (acc : List Char) : List Char :=
  if 0 < n then
    if comma = 3 then fmtLoop n 0 (',' :: acc)
    else fmtLoop (n / 10) (comma + 1) (digitChar (n % 10) :: acc)
  else acc
termination_by 2 * n + (if comma = 3 then 1 else 0)
decreasing_by
  · simp_wf
    split_ifs <;> omega
  · simp_wf
    have hd : n / 10 < n := Nat.div_lt_self (by omega) (by decide)
    split_ifs <;> omega

/-- formatLogfmtUint64 from the source: numbers below 100000 are rendered
plain (through strconv.Itoa on the possibly negated value); larger numbers
go through the grouping loop, with the minus sign prepended afterwards. -/
def formatLogfmtUint64 (n : Nat) (neg : Bool) : String :=
  if n < 100000 then intStr (if neg then -(n : Int) else (n : Int))
  else if neg then ⟨'-' :: fmtLoop n 0 []⟩ else ⟨fmtLoop n 0 []⟩

/-- FormatLogfmtUint64 from the source. -/
def FormatLogfmtUint64 (n : Nat) : String := formatLogfmtUint64 n false

/-- FormatLogfmtInt64 from the source: negative input is formatted from its
magnitude with the negative flag.  (For the minimum int64 the Go negation
wraps to 2^63, which equals the natAbs used here.) -/
def FormatLogfmtInt64 (n : Int) : String :=
  if n < 0 then formatLogfmtUint64 n.natAbs true else formatLogfmtUint64 n.natAbs false

/-- The buffer loop of formatLogfmtBigInt, over the decimal text processed
from its last character to its first (the input list is the reversed text):
a minus sign is copied as is, after every third copied digit a comma is
inserted before the next digit (the comma counter restarting at one on that
digit), otherwise the digit is copied and counted. -/
def bigAux : List Char → Nat → List Char
  | [], _ => []
  | c :: cs, comma =>
    if c = '-' then c :: bigAux cs comma
    else if comma = 3 then ',' :: c :: bigAux cs 1
    else c :: bigAux cs (comma + 1)

/-- formatLogfmtBigInt from the source: values fitting uint64 or int64 are
delegated; otherwise the decimal text is regrouped with the buffer loop. -/
def formatLogfmtBigInt (n : Int) : String :=
  if 0 ≤ n ∧ n < 2 ^ 64 then FormatLogfmtUint64 n.natAbs
  else if -(2 ^ 63) ≤ n ∧ n < 2 ^ 63 then FormatLogfmtInt64 n
  else ⟨(bigAux (intStr n).data.reverse 0).reverse⟩

/-- The grouping rule in the words of the specification, on a least
significant first digit list: keep up to three digits, then a separator,
then the grouping of the rest. -/
def commaGroup (ds : List Char) : List Char :=
  if h : ds.length ≤ 3 then ds else ds.take 3 ++ ',' :: commaGroup (ds.drop 3)
termination_by ds.length
decreasing_by simp at h ⊢; omega

/-- The grouping rule with k digits still to go before the next separator
(a separator is due immediately at k = 0 when digits remain). -/
def commaGroupK (ds : List Char) (k : Nat) : List Char :=
  ds.take k ++ (if ds.length ≤ k then [] else ',' :: commaGroup (ds.drop k))

/-- The specification rendering of a grouped natural number: decimal digits
with a separator every three digits, counted from the right. -/
def groupedNat (n : Nat) : String :=
  ⟨(commaGroup (digitsLsd n)).reverse⟩

/-- strings.ToUpper, modelled from the standard library for ASCII input. -/
def goToUpper (s : String) : String := ⟨s.data.map Char.toUpper⟩

/-- The lookup loop of ParseLevel: walk the level table with its index,
returning the index of the first name equal to the target, INFO (3) when
none matches. -/
def parseLoop (target : String) : Nat → List String → Int
  | _, [] => 3
  | i, name :: rest => if name = target then (i : Int) else parseLoop target (i + 1) rest

/-- ParseLevel from the source: upper-case the input and look it up in the
level table, defaulting to INFO. -/
def ParseLevel (s : String) : Int := parseLoop (goToUpper s) 0 Levels

/-- The key/value pairing in the words of the specification: consecutive
disjoint pairs of the argument list, in input order, a trailing unpaired
argument dropped. -/
def chunk2 : List String → List (String × String)
  | k :: v :: rest => (k, v) :: chunk2 rest
  | _ => []

/-- One rendered pair in the words of the specification: tab, formatted key,
equals sign, formatted value. -/
def renderPair (fv : String → String) (p : String × String) : String :=
  "\t" ++ fv p.1 ++ "=" ++ fv p.2

/-! Shared helper lemmas. -/

theorem strMk_append (a b : List Char) : (⟨a⟩ : String) ++ ⟨b⟩ = ⟨a ++ b⟩ := rfl

theorem join_cons_str (a : String) (l : List String) :
    String.join (a :: l) = a ++ String.join l := by
  have aux : ∀ (l : List String) (x : String),
      List.foldl (fun r s => r ++ s) x l = x ++ List.foldl (fun r s => r ++ s) "" l := by
    intro l
    induction l with
    | nil => intro x; simp [String.append_empty]
    | cons s t ih =>
      intro x
      simp only [List.foldl_cons]
      rw [ih (x ++ s), ih ("" ++ s), String.empty_append, String.append_assoc]
  show List.foldl (fun r s => r ++ s) ("" ++ a) l = _
  rw [String.empty_append, aux l a]
  rfl

theorem join_single (a : String) : String.join [a] = a := by
  rw [join_cons_str]
  show a ++ String.join [] = a
  exact String.append_empty a

theorem join_pair (a b : String) : String.join [a, b] = a ++ b := by
  rw [join_cons_str, join_single]

theorem nlFree_append (a b : String) : nlFree (a ++ b) ↔ nlFree a ∧ nlFree b := by
  simp [nlFree, String.data_append, List.mem_append, not_or]

theorem oneLine_of_nlFree (p : String) (h : nlFree p) : oneLine (p ++ "\n") := by
  constructor
  · rw [String.data_append]
    rw [List.count_append]
    rw [List.count_eq_zero.mpr h]
    rfl
  · rw [String.data_append]
    exact List.getLast?_concat ..

/-! FileWriter: size accounting and rotation (C1), failed rotation (C4),
double close (C9). -/

/-- Claim C1: a sink with a 100-byte bound takes a 60-byte write without
rotating, then rotates on the next 60-byte write, after which the rotated
file holds the first 60 bytes, the live file only the second 60 bytes and
the size counter is 60.  In general a successful tracked write adds the
byte count to the counter, and a write that would push the counter past the
bound rotates first, the counter restarting from the fresh file size. -/
theorem write_size_rotation :
    ((FileWriter.Write true ⟨0, 100, some false, [], [], [], false⟩ (List.replicate 60 1)).1.rotated = [] ∧
     (FileWriter.Write true ⟨0, 100, some false, [], [], [], false⟩ (List.replicate 60 1)).1.live = List.replicate 60 1 ∧
     (FileWriter.Write true ⟨0, 100, some false, [], [], [], false⟩ (List.replicate 60 1)).1.size = 60 ∧
     (FileWriter.Write true (FileWriter.Write true ⟨0, 100, some false, [], [], [], false⟩ (List.replicate 60 1)).1 (List.replicate 60 2)).1.rotated = [List.replicate 60 1] ∧
     (FileWriter.Write true (FileWriter.Write true ⟨0, 100, some false, [], [], [], false⟩ (List.replicate 60 1)).1 (List.replicate 60 2)).1.live = List.replicate 60 2 ∧
     (FileWriter.Write true (FileWriter.Write true ⟨0, 100, some false, [], [], [], false⟩ (List.replicate 60 1)).1 (List.replicate 60 2)).1.size = 60) ∧
    (∀ (w : FileWriter) (p : List Nat), 0 < w.maxSize → w.size + p.length ≤ w.maxSize →
      (FileWriter.Write true w p).1.size = w.size + p.length ∧
      (FileWriter.Write true w p).1.rotated = w.rotated ∧
      (FileWriter.Write true w p).1.live = w.live ++ p ∧
      (FileWriter.Write true w p).2.1 = p.length ∧
      (FileWriter.Write true w p).2.2 = false) ∧
    (∀ (w : FileWriter) (p : List Nat), w.file.isSome → 0 < w.maxSize →
      w.maxSize < w.size + p.length →
      (FileWriter.Write true w p).1.rotated = w.live :: w.rotated ∧
      (FileWriter.Write true w p).1.live = p ∧
      (FileWriter.Write true w p).1.size = p.length ∧
      (FileWriter.Write true w p).2.1 = p.length ∧
      (FileWriter.Write true w p).2.2 = false) := by
  refine ⟨by decide, ?_, ?_⟩
  · intro w p h1 h2
    have hlt : ¬ w.maxSize < w.size + p.length := by omega
    simp [FileWriter.Write, hlt, FileWriter.writeBody, h1]
  · intro w p hf h1 h2
    have hyes : 0 < w.maxSize ∧ w.maxSize < w.size + p.length := ⟨h1, h2⟩
    simp [FileWriter.Write, hyes, FileWriter.rotate, hf, FileWriter.writeBody, h1]

/-- Witness for C1: the general arms applied to concrete sink states. -/
theorem write_size_rotation_witness :
    (FileWriter.Write true ⟨10, 50, some false, [9], [], [], false⟩ [7, 7]).1.size = 10 + 2 ∧
    (FileWriter.Write true ⟨49, 50, some false, [9], [], [], false⟩ [7, 7]).1.size = 2 := by
  refine ⟨(write_size_rotation.2.1 ⟨10, 50, some false, [9], [], [], false⟩ [7, 7] (by decide) (by decide)).1, ?_⟩
  have h := (write_size_rotation.2.2 ⟨49, 50, some false, [9], [], [], false⟩ [7, 7] (by decide) (by decide) (by decide)).2.2.1
  simpa using h

/-- Claim C4: when the bound is configured, the write would cross it and the
rotation fails, the write returns count 0 and the error, the size counter is
unchanged, the given bytes are written nowhere, and a diagnostic line is
printed to the console stream. -/
theorem write_rotate_failure :
    ∀ (w : FileWriter) (p : List Nat), 0 < w.maxSize → w.maxSize < w.size + p.length →
      (FileWriter.Write false w p).2.1 = 0 ∧
      (FileWriter.Write false w p).2.2 = true ∧
      (FileWriter.Write false w p).1.size = w.size ∧
      (FileWriter.Write false w p).1.console = w.console ++ ["Failed to rotate log file"] ∧
      (w.file.isSome →
        (FileWriter.Write false w p).1.live = [] ∧
        (FileWriter.Write false w p).1.rotated = w.live :: w.rotated) ∧
      (w.file = none →
        (FileWriter.Write false w p).1.live = w.live ∧
        (FileWriter.Write false w p).1.rotated = w.rotated) := by
  intro w p h1 h2
  have hyes : 0 < w.maxSize ∧ w.maxSize < w.size + p.length := ⟨h1, h2⟩
  by_cases hf : w.file.isSome
  · simp [FileWriter.Write, hyes, FileWriter.rotate, hf]
    intro hc
    rw [hc] at hf
    simp at hf
  · have hn : w.file = none := by
      cases hq : w.file with
      | none => rfl
      | some b => rw [hq] at hf; simp at hf
    simp [FileWriter.Write, hyes, FileWriter.rotate, hn]

/-- Witness for C4: a failed rotation on a concrete overflowing write. -/
theorem write_rotate_failure_witness :
    (FileWriter.Write false ⟨49, 50, some false, [9], [], [], false⟩ [7, 7]).2.1 = 0 ∧
    (FileWriter.Write false ⟨49, 50, some false, [9], [], [], false⟩ [7, 7]).2.2 = true := by
  have h := write_rotate_failure ⟨49, 50, some false, [9], [], [], false⟩ [7, 7] (by decide) (by decide)
  exact ⟨h.1, h.2.1⟩

/-- Counterexample to claim C9 as stated: on a writer holding an open file,
the first Close returns no error but the second Close returns the
already-closed error, because the writer never clears its file handle and
os.File.Close reports an error on a repeated call. -/
theorem close_twice_counterexample :
    (FileWriter.Close ⟨0, 0, some false, [], [], [], false⟩).2 = false ∧
    (FileWriter.Close (FileWriter.Close ⟨0, 0, some false, [], [], [], false⟩).1).2 = true := by
  decide

/-- Claim C9, amended: Close closes the underlying file when one is open and
returns no error the first time; with no file it returns no error; but a
second Close on a writer that held an open file reports the already-closed
error rather than nil. -/
theorem close_behavior :
    ∀ w : FileWriter,
      (w.file = none → FileWriter.Close w = (w, false)) ∧
      (w.file = some false → (FileWriter.Close w).2 = false ∧
        (FileWriter.Close w).1 = { w with file := some true }) ∧
      (w.file.isSome → (FileWriter.Close (FileWriter.Close w).1).2 = true) := by
  intro w
  refine ⟨?_, ?_, ?_⟩
  · intro h; simp [FileWriter.Close, h]
  · intro h; simp [FileWriter.Close, h]
  · intro h
    cases hq : w.file with
    | none => rw [hq] at h; simp at h
    | some b => simp [FileWriter.Close, hq]

/-- Witness for C9: the amended behavior on concrete writers. -/
theorem close_behavior_witness :
    FileWriter.Close ⟨0, 0, none, [], [], [], false⟩ = (⟨0, 0, none, [], [], [], false⟩, false) ∧
    (FileWriter.Close ⟨0, 0, some false, [], [], [], false⟩).2 = false := by
  exact ⟨(close_behavior ⟨0, 0, none, [], [], [], false⟩).1 rfl,
    ((close_behavior ⟨0, 0, some false, [], [], [], false⟩).2.1 rfl).1⟩

/-! Retention sweep (C2). -/

theorem filter_and_split {α : Type} (l : List α) (p q : α → Bool) :
    (l.filter p).length =
      (l.filter (fun a => p a && q a)).length + (l.filter (fun a => p a && !q a)).length := by
  induction l with
  | nil => simp
  | cons a t ih =>
    by_cases hp : p a = true
    · by_cases hq : q a = true
      · simp [List.filter_cons, hp, hq, ih]
        omega
      · simp [List.filter_cons, hp, hq, ih]
        omega
    · simp [List.filter_cons, hp, ih]

theorem filter_and_le {α : Type} (l : List α) (p q : α → Bool) :
    (l.filter (fun a => p a && q a)).length ≤ (l.filter q).length := by
  induction l with
  | nil => simp
  | cons a t ih =>
    by_cases hp : p a = true
    · by_cases hq : q a = true
      · simp [List.filter_cons, hp, hq]
        omega
      · simp [List.filter_cons, hp, hq, ih]
    · by_cases hq : q a = true
      · simp [List.filter_cons, hp, hq]
        omega
      · simp [List.filter_cons, hp, hq, ih]

theorem nodup_name_filter_le_one (base : String) (l : List DirEntry)
    (h : (l.map DirEntry.name).Nodup) :
    (l.filter (fun e => e.name == base)).length ≤ 1 := by
  induction l with
  | nil => simp
  | cons e t ih =>
    simp only [List.map_cons, List.nodup_cons] at h
    by_cases hb : e.name = base
    · have hnone : t.filter (fun x => x.name == base) = [] := by
        rw [List.filter_eq_nil_iff]
        intro x hx
        simp only [beq_iff_eq]
        intro hxb
        exact h.1 (by rw [← hb] at hxb; exact hxb ▸ List.mem_map_of_mem DirEntry.name hx)
      simp [List.filter_cons, hb, hnone]
    · simp [List.filter_cons, hb, ih h.2]

theorem removeLogsRev_filter_le (base : String) (maxFiles : Nat) :
    ∀ (l : List DirEntry) (count : Nat),
      ((removeLogsRev base maxFiles count l).filter
        (fun e => matchOk base e && e.name != base)).length ≤ maxFiles - count := by
  intro l
  induction l with
  | nil => intro count; simp [removeLogsRev]
  | cons e t ih =>
    intro count
    rw [removeLogsRev]
    by_cases hm : matchOk base e = true
    · rw [if_pos hm]
      by_cases hr : maxFiles < count + 1 ∧ e.name ≠ base
      · rw [if_pos hr]
        have := ih (count + 1)
        omega
      · rw [if_neg hr]
        by_cases hb : e.name = base
        · have hpred : (matchOk base e && e.name != base) = false := by
            simp [hb]
          simp only [List.filter_cons, hpred, Bool.false_eq_true, if_false]
          have := ih (count + 1)
          omega
        · have hcnt : count + 1 ≤ maxFiles := by
            rcases not_and_or.mp hr with h1 | h1
            · omega
            · exact absurd (not_not.mp h1) hb
          have hpred : (matchOk base e && e.name != base) = true := by
            simp [hm, hb]
          simp only [List.filter_cons, hpred, if_true, List.length_cons]
          have := ih (count + 1)
          omega
    · rw [if_neg hm]
      have hpred : (matchOk base e && e.name != base) = false := by
        simp [hm]
      simp only [List.filter_cons, hpred, Bool.false_eq_true, if_false]
      exact ih count

theorem removeLogsRev_keeps_base (base : String) (maxFiles : Nat) :
    ∀ (l : List DirEntry) (count : Nat) (e : DirEntry),
      e ∈ l → e.name = base → e ∈ removeLogsRev base maxFiles count l := by
  intro l
  induction l with
  | nil => intro count e he; exact absurd he (List.not_mem_nil e)
  | cons a t ih =>
    intro count e he hb
    rw [removeLogsRev]
    rcases List.mem_cons.mp he with rfl | ht
    · by_cases hm : matchOk base e = true
      · rw [if_pos hm]
        rw [if_neg (by intro hc; exact hc.2 hb)]
        exact List.mem_cons_self ..
      · rw [if_neg hm]
        exact List.mem_cons_self ..
    · by_cases hm : matchOk base a = true
      · rw [if_pos hm]
        by_cases hr : maxFiles < count + 1 ∧ a.name ≠ base
        · rw [if_pos hr]
          exact ih (count + 1) e ht hb
        · rw [if_neg hr]
          exact List.mem_cons_of_mem a (ih (count + 1) e ht hb)
      · rw [if_neg hm]
        exact List.mem_cons_of_mem a (ih count e ht hb)

theorem removeLogsRev_sublist (base : String) (maxFiles : Nat) :
    ∀ (l : List DirEntry) (count : Nat),
      List.Sublist (removeLogsRev base maxFiles count l) l := by
  intro l
  induction l with
  | nil => intro count; simp [removeLogsRev]
  | cons a t ih =>
    intro count
    rw [removeLogsRev]
    by_cases hm : matchOk base a = true
    · rw [if_pos hm]
      by_cases hr : maxFiles < count + 1 ∧ a.name ≠ base
      · rw [if_pos hr]
        exact List.Sublist.cons a (ih (count + 1))
      · rw [if_neg hr]
        exact List.Sublist.cons₂ a (ih (count + 1))
    · rw [if_neg hm]
      exact List.Sublist.cons₂ a (ih count)

/-- Counterexample to claim C2 as stated: base x.log, retention count 1, a
sorted directory listing holding the live file and two rotations.  The
settled sweep keeps the newest rotation (count 1) and the live file (count
3, protected by name), so 2 matching files remain, exceeding maxFiles = 1;
a second sweep removes nothing further. -/
theorem retention_counterexample :
    removeLogs "x.log" 1
        [⟨"x.log", true⟩, ⟨"x.log2024-05-01T00:00:00Z", true⟩, ⟨"x.log2024-05-02T00:00:00Z", true⟩] =
      [⟨"x.log", true⟩, ⟨"x.log2024-05-02T00:00:00Z", true⟩] ∧
    removeLogs "x.log" 1 [⟨"x.log", true⟩, ⟨"x.log2024-05-02T00:00:00Z", true⟩] =
      [⟨"x.log", true⟩, ⟨"x.log2024-05-02T00:00:00Z", true⟩] ∧
    ¬ ((removeLogs "x.log" 1
        [⟨"x.log", true⟩, ⟨"x.log2024-05-01T00:00:00Z", true⟩, ⟨"x.log2024-05-02T00:00:00Z", true⟩]).filter
          (matchOk "x.log")).length ≤ 1 := by
  decide

/-- Claim C2, amended: after a sweep with retention count N > 0, at most N
matching files other than the live file remain; the live file itself is
never removed; hence (for a listing without duplicate names) at most N + 1
matching files remain in total. -/
theorem retention_bound :
    ∀ (base : String) (maxFiles : Nat) (list : List DirEntry), 0 < maxFiles →
      ((removeLogs base maxFiles list).filter
        (fun e => matchOk base e && e.name != base)).length ≤ maxFiles ∧
      (∀ e ∈ list, e.name = base → e ∈ removeLogs base maxFiles list) ∧
      ((list.map DirEntry.name).Nodup →
        ((removeLogs base maxFiles list).filter (matchOk base)).length ≤ maxFiles + 1) := by
  intro base maxFiles list _
  refine ⟨?_, ?_, ?_⟩
  · rw [removeLogs, List.filter_reverse, List.length_reverse]
    have := removeLogsRev_filter_le base maxFiles list.reverse 0
    omega
  · intro e he hb
    rw [removeLogs, List.mem_reverse]
    exact removeLogsRev_keeps_base base maxFiles list.reverse 0 e (List.mem_reverse.mpr he) hb
  · intro hnd
    have hsub : List.Sublist (removeLogs base maxFiles list) list := by
      rw [removeLogs]
      have h1 := removeLogsRev_sublist base maxFiles list.reverse 0
      have h2 := List.Sublist.reverse h1
      rwa [List.reverse_reverse] at h2
    have hsplit := filter_and_split (removeLogs base maxFiles list) (matchOk base)
      (fun e => e.name != base)
    have h1 : ((removeLogs base maxFiles list).filter
        (fun e => matchOk base e && e.name != base)).length ≤ maxFiles := by
      rw [removeLogs, List.filter_reverse, List.length_reverse]
      have := removeLogsRev_filter_le base maxFiles list.reverse 0
      omega
    have heqf : (fun e => matchOk base e && !(e.name != base)) =
        (fun e => matchOk base e && (e.name == base)) := by
      funext x
      simp [bne]
    have h2 : ((removeLogs base maxFiles list).filter
        (fun e => matchOk base e && !(e.name != base))).length ≤ 1 := by
      rw [heqf]
      have ha := filter_and_le (removeLogs base maxFiles list) (matchOk base)
        (fun e => e.name == base)
      have hb := List.Sublist.length_le
        (List.Sublist.filter (fun e => e.name == base) hsub)
      have hc := nodup_name_filter_le_one base list hnd
      omega
    omega

/-- Witness for C2: the amended bound on the concrete three-entry listing. -/
theorem retention_bound_witness :
    ((removeLogs "x.log" 1
        [⟨"x.log", true⟩, ⟨"x.log2024-05-01T00:00:00Z", true⟩, ⟨"x.log2024-05-02T00:00:00Z", true⟩]).filter
          (fun e => matchOk "x.log" e && e.name != "x.log")).length ≤ 1 ∧
    (⟨"x.log", true⟩ : DirEntry) ∈ removeLogs "x.log" 1
        [⟨"x.log", true⟩, ⟨"x.log2024-05-01T00:00:00Z", true⟩, ⟨"x.log2024-05-02T00:00:00Z", true⟩] := by
  have h := retention_bound "x.log" 1
    [⟨"x.log", true⟩, ⟨"x.log2024-05-01T00:00:00Z", true⟩, ⟨"x.log2024-05-02T00:00:00Z", true⟩]
    (by decide)
  exact ⟨h.1, h.2.1 ⟨"x.log", true⟩ (by decide) rfl⟩

/-! Key/value assembly (C5). -/

theorem pairsLoop_eq (fv : String → String) :
    ∀ (args : List String) (msg : String),
      pairsLoop fv msg args = msg ++ String.join ((chunk2 args).map (renderPair fv))
  | [], msg => by
    simp only [pairsLoop, chunk2, List.map_nil]
    rw [show String.join ([] : List String) = "" from rfl, String.append_empty]
  | [k], msg => by
    simp only [pairsLoop, chunk2, List.map_nil]
    rw [show String.join ([] : List String) = "" from rfl, String.append_empty]
  | k :: v :: rest, msg => by
    simp only [pairsLoop]
    rw [pairsLoop_eq fv rest, chunk2]
    simp only [List.map_cons]
    rw [join_cons_str]
    simp [renderPair, String.append_assoc]

theorem chunk2_index :
    ∀ args : List String,
      chunk2 args = (List.range (args.length / 2)).map
        (fun i => (args.getD (2 * i) "", args.getD (2 * i + 1) ""))
  | [] => by simp [chunk2]
  | [k] => by simp [chunk2]
  | k :: v :: rest => by
    rw [chunk2, chunk2_index rest]
    have hlen : (k :: v :: rest).length / 2 = rest.length / 2 + 1 := by
      simp only [List.length_cons]
      omega
    rw [hlen, List.range_succ_eq_map]
    rw [List.map_cons, List.map_map]
    refine congrArg₂ List.cons ?_ ?_
    · simp
    · refine List.map_congr_left ?_
      intro i hi
      have h2 : 2 * Nat.succ i = 2 * i + 1 + 1 := by omega
      have h3 : 2 * Nat.succ i + 1 = 2 * i + 1 + 1 + 1 := by omega
      simp only [Function.comp_apply, h2, h3, List.getD_cons_succ]

/-- Claim C5: the key/value assembly pairs every key at an even index with
the value at the following odd index, each pair rendered as tab, formatted
key, equals sign, formatted value, in input order, keys and values both
going through the value formatter; an odd-length argument list additionally
appends a trailing formatted key followed by a bare equals sign. -/
theorem format_key_value :
    ∀ (fv : String → String) (msg : String) (args : List String),
      (args.length % 2 = 0 →
        Format fv msg args = msg ++ String.join ((chunk2 args).map (renderPair fv))) ∧
      (args.length % 2 = 1 →
        Format fv msg args = msg ++ String.join ((chunk2 args).map (renderPair fv))
          ++ "\t" ++ fv (args.getLast?.getD "") ++ "=") ∧
      chunk2 args = (List.range (args.length / 2)).map
        (fun i => (args.getD (2 * i) "", args.getD (2 * i + 1) "")) := by
  intro fv msg args
  refine ⟨?_, ?_, chunk2_index args⟩
  · intro h
    rw [Format]
    simp only [h]
    rw [if_neg (by omega)]
    exact pairsLoop_eq fv args msg
  · intro h
    rw [Format]
    simp only [h, if_true]
    rw [pairsLoop_eq fv args msg]

/-- Witness for C5: the odd-length arm on a concrete three-argument call. -/
theorem format_key_value_witness :
    Format (fun s => s ++ s) "m" ["k", "v", "x"] = "m\tkk=vv\txx=" := by
  have h := (format_key_value (fun s => s ++ s) "m" ["k", "v", "x"]).2.1 (by decide)
  rw [h]
  decide

/-! Level gating (C3). -/

theorem flushed_Write (l : Logger) (b : String) :
    flushed l (l.Write b true) = b ++ "\n" := by
  rw [flushed, Logger.Write]
  simp only [if_true]
  rw [List.append_assoc]
  rw [List.drop_left]
  exact join_pair b "\n"

theorem flushed_single (l : Logger) (s : String) :
    flushed l { l with sink := l.sink ++ [s] } = s := by
  rw [flushed]
  simp only
  rw [List.drop_left]
  exact join_single s

theorem nlFree_pad5 (s : String) (h : nlFree s) : nlFree (pad5 s) := by
  rw [pad5, nlFree_append]
  refine ⟨h, ?_⟩
  show '\n' ∉ List.replicate (5 - s.length) ' '
  simp [List.mem_replicate]

theorem nlFree_stringify (level : Int) : nlFree (stringifyLevel level) := by
  rw [stringifyLevel]
  generalize level.toNat = k
  rcases k with _|_|_|_|_|_|n
  · decide
  · decide
  · decide
  · decide
  · decide
  · decide
  · rw [List.getD_eq_default]
    · decide
    · show Levels.length ≤ n + 6
      simp [Levels]

theorem nlFree_pairsLoop (fv : String → String) :
    ∀ (args : List String) (msg : String), nlFree msg → (∀ a ∈ args, nlFree (fv a)) →
      nlFree (pairsLoop fv msg args)
  | [], msg, h, _ => by simpa [pairsLoop] using h
  | [k], msg, h, _ => by simpa [pairsLoop] using h
  | k :: v :: rest, msg, h, ha => by
    simp only [pairsLoop]
    refine nlFree_pairsLoop fv rest _ ?_ ?_
    · simp only [nlFree_append]
      exact ⟨⟨⟨⟨h, by decide⟩, ha k (by simp)⟩, by decide⟩, ha v (by simp)⟩
    · intro a hm
      exact ha a (by simp [hm])

theorem nlFree_foldl (fv : String → String) :
    ∀ (args : List String) (init : String), nlFree init → (∀ a ∈ args, nlFree (fv a)) →
      nlFree (args.foldl (fun m a => m ++ "\t" ++ fv a) init) := by
  intro args
  induction args with
  | nil => intro init h _; simpa using h
  | cons a t ih =>
    intro init h ha
    simp only [List.foldl_cons]
    refine ih _ ?_ ?_
    · simp only [nlFree_append]
      exact ⟨⟨h, by decide⟩, ha a (by simp)⟩
    · intro x hx
      exact ha x (by simp [hx])

theorem getLast_getD_mem (l : List String) (h : l ≠ []) : l.getLast?.getD "" ∈ l := by
  cases hq : l.getLast? with
  | none => exact absurd (List.getLast?_eq_none_iff.mp hq) h
  | some a =>
    have hm : a ∈ l.getLast? := by rw [hq]; rfl
    obtain ⟨hne, rfl⟩ := List.mem_getLast?_eq_getLast hm
    simpa [hq] using List.getLast_mem hne

theorem nlFree_logLine (fv : String → String) (now levelStr msg : String) (args : List String)
    (hn : nlFree now) (hl : nlFree levelStr) (hm : nlFree msg)
    (ha : ∀ a ∈ args, nlFree (fv a)) :
    ∃ p, logLine fv now levelStr msg args = p ++ "\n" ∧ nlFree p := by
  have hpl := nlFree_pairsLoop fv args msg hm ha
  have hp5 := nlFree_pad5 levelStr hl
  rw [logLine]
  by_cases hodd : args.length % 2 = 1
  · rw [if_pos hodd]
    refine ⟨_, rfl, ?_⟩
    have hne : args ≠ [] := by
      intro he; subst he; simp at hodd
    have hlast := ha _ (getLast_getD_mem args hne)
    simp only [nlFree_append]
    exact ⟨⟨⟨⟨⟨⟨⟨hp5, by decide⟩, hn⟩, by decide⟩, hpl⟩, by decide⟩, hlast⟩, by decide⟩
  · rw [if_neg hodd]
    refine ⟨_, rfl, ?_⟩
    simp only [nlFree_append]
    exact ⟨⟨⟨⟨hp5, by decide⟩, hn⟩, by decide⟩, hpl⟩

/-- Counterexample to claim C3 as stated: Output at a level equal to the
threshold (so not gated) with a message containing a newline writes two
lines, not exactly one line terminated by a newline. -/
theorem level_gating_counterexample :
    ¬ ((3 : Int) < (⟨3, [], [], []⟩ : Logger).level) ∧
    ¬ oneLine (flushed ⟨3, [], [], []⟩ (Logger.Output ⟨3, [], [], []⟩ 3 "a\nb")) := by
  decide

/-- Claim C3, amended: every one of the six leveled calls writes zero bytes
when the level is below the threshold; when not gated, each call appends
exactly one newline-terminated record (the payload plus a single trailing
newline), and the record forms exactly one line whenever the rendered
payload contains no newline byte (messages, the timestamp, formatted values
and marshalled payloads may themselves contain newlines, as in Output of a
multi-line string or an indented Dump). -/
theorem level_gating :
    ∀ (fv sub : String → String) (now : String) (l : Logger) (level : Int) (msg : String)
      (args : List String) (mj md : Except String String),
      (level < l.level →
        l.Output level msg = l ∧
        Logger.Log fv now l level msg args = l ∧
        Logger.Logf sub now l level msg = l ∧
        Logger.Println fv now l level args = l ∧
        l.Json level mj = l ∧
        l.Dump level md = l) ∧
      (l.level ≤ level →
        (∃ p, flushed l (l.Output level msg) = p ++ "\n") ∧
        (∃ p, flushed l (Logger.Log fv now l level msg args) = p ++ "\n") ∧
        (∃ p, flushed l (Logger.Logf sub now l level msg) = p ++ "\n") ∧
        (∃ p, flushed l (Logger.Println fv now l level args) = p ++ "\n") ∧
        (∃ p, flushed l (l.Json level mj) = p ++ "\n") ∧
        (∃ p, flushed l (l.Dump level md) = p ++ "\n")) ∧
      (l.level ≤ level →
        (nlFree msg → oneLine (flushed l (l.Output level msg))) ∧
        (nlFree now → nlFree msg → (∀ a ∈ args, nlFree (fv a)) →
          oneLine (flushed l (Logger.Log fv now l level msg args))) ∧
        (nlFree (sub (pad5 (stringifyLevel level) ++ "[" ++ now ++ "] " ++ msg)) →
          oneLine (flushed l (Logger.Logf sub now l level msg))) ∧
        (nlFree now → (∀ a ∈ args, nlFree (fv a)) →
          oneLine (flushed l (Logger.Println fv now l level args))) ∧
        (nlFree (pick mj) → oneLine (flushed l (l.Json level mj))) ∧
        (nlFree (pick md) → oneLine (flushed l (l.Dump level md)))) := by
  intro fv sub now l level msg args mj md
  refine ⟨?_, ?_, ?_⟩
  · intro hlt
    exact ⟨by rw [Logger.Output, if_pos hlt], by rw [Logger.Log, if_pos hlt],
      by rw [Logger.Logf, if_pos hlt], by rw [Logger.Println, if_pos hlt],
      by rw [Logger.Json, if_pos hlt], by rw [Logger.Dump, if_pos hlt]⟩
  · intro hle
    have hnl : ¬ level < l.level := by omega
    refine ⟨?_, ?_, ?_, ?_, ?_, ?_⟩
    · rw [Logger.Output, if_neg hnl]; exact ⟨msg, flushed_Write l msg⟩
    · rw [Logger.Log, if_neg hnl, Logger.write]
      rw [flushed_single]
      rw [logLine]
      by_cases hodd : args.length % 2 = 1
      · rw [if_pos hodd]; exact ⟨_, rfl⟩
      · rw [if_neg hodd]; exact ⟨_, rfl⟩
    · rw [Logger.Logf, if_neg hnl]; exact ⟨_, flushed_Write l _⟩
    · rw [Logger.Println, if_neg hnl]; exact ⟨_, flushed_Write l _⟩
    · rw [Logger.Json, if_neg hnl]; exact ⟨_, flushed_Write l _⟩
    · rw [Logger.Dump, if_neg hnl]; exact ⟨_, flushed_Write l _⟩
  · intro hle
    have hnl : ¬ level < l.level := by omega
    refine ⟨?_, ?_, ?_, ?_, ?_, ?_⟩
    · intro hm
      rw [Logger.Output, if_neg hnl, flushed_Write]
      exact oneLine_of_nlFree msg hm
    · intro hn hm ha
      rw [Logger.Log, if_neg hnl, Logger.write, flushed_single]
      obtain ⟨p, hp, hfree⟩ := nlFree_logLine fv now (stringifyLevel level) msg args hn
        (nlFree_stringify level) hm ha
      rw [hp]
      exact oneLine_of_nlFree p hfree
    · intro hs
      rw [Logger.Logf, if_neg hnl, flushed_Write]
      exact oneLine_of_nlFree _ hs
    · intro hn ha
      rw [Logger.Println, if_neg hnl, flushed_Write]
      refine oneLine_of_nlFree _ (nlFree_foldl fv args _ ?_ ha)
      simp only [nlFree_append]
      exact ⟨⟨⟨nlFree_pad5 _ (nlFree_stringify level), by decide⟩, hn⟩, by decide⟩
    · intro hj
      rw [Logger.Json, if_neg hnl, flushed_Write]
      exact oneLine_of_nlFree _ hj
    · intro hj
      rw [Logger.Dump, if_neg hnl, flushed_Write]
      exact oneLine_of_nlFree _ hj

/-- Witness for C3: a gated call leaves the logger unchanged and an ungated
Output of a newline-free message forms exactly one line. -/
theorem level_gating_witness :
    Logger.Output ⟨4, [], [], []⟩ 3 "x" = ⟨4, [], [], []⟩ ∧
    oneLine (flushed ⟨3, [], [], []⟩ (Logger.Output ⟨3, [], [], []⟩ 3 "ab")) := by
  have h1 := (level_gating (fun s => s) (fun s => s) "t" ⟨4, [], [], []⟩ 3 "x" []
    (.ok "") (.ok "")).1 (by decide)
  have h2 := (level_gating (fun s => s) (fun s => s) "t" ⟨3, [], [], []⟩ 3 "ab" []
    (.ok "") (.ok "")).2.2 (by decide)
  exact ⟨h1.1, h2.1 (by decide)⟩

/-! SetLevel and the dispatch tables (C8). -/

theorem rangeMap_getD {α : Type} (f : Nat → α) (d : α) (i : Nat) (h : i < 6) :
    ((List.range 6).map f).getD i d = f i := by
  rw [List.getD_eq_getElem?_getD, List.getElem?_map, List.getElem?_range h]
  rfl

/-- Claim C8: on a logger whose threshold is in range, SetLevel with an
out-of-range target stores INFO (3) and emits the diagnostic line through
the logger itself at ERROR; an in-range target is stored unchanged with no
output; and afterwards every level i below 6 holds the active handle in both
dispatch tables exactly when i is at least the resulting threshold, the
inert handle otherwise. -/
theorem set_level_dispatch :
    ∀ (l : Logger) (target : Int), l.level ≤ 5 →
      ((target < 0 ∨ 5 < target) →
        (l.SetLevel target).level = 3 ∧
        (l.SetLevel target).sink =
          l.sink ++ ["Invalid log level, will use INFO by default.", "\n"]) ∧
      (0 ≤ target → target ≤ 5 →
        (l.SetLevel target).level = target ∧ (l.SetLevel target).sink = l.sink) ∧
      (∀ i : Nat, i < 6 →
        ((l.SetLevel target).handles.getD i HandleKind.inert =
          if (l.SetLevel target).level ≤ (i : Int) then HandleKind.active (stringifyLevel i)
          else HandleKind.inert) ∧
        ((l.SetLevel target).handleIfs.getD i HandleKind.inert =
          if (l.SetLevel target).level ≤ (i : Int) then HandleKind.active (stringifyLevel i)
          else HandleKind.inert)) := by
  intro l target h5
  have hng : ¬ (5 : Int) < l.level := by omega
  have hhand : (l.SetLevel target).handles = (List.range 6).map
      (fun i : Nat => if (l.SetLevel target).level ≤ (i : Int) then HandleKind.active (stringifyLevel i)
        else HandleKind.inert) := by
    by_cases h : target < 0 ∨ 5 < target
    · simp [Logger.SetLevel, h]
    · simp [Logger.SetLevel, h]
  have hhandIf : (l.SetLevel target).handleIfs = (List.range 6).map
      (fun i : Nat => if (l.SetLevel target).level ≤ (i : Int) then HandleKind.active (stringifyLevel i)
        else HandleKind.inert) := by
    by_cases h : target < 0 ∨ 5 < target
    · simp [Logger.SetLevel, h]
    · simp [Logger.SetLevel, h]
  refine ⟨?_, ?_, ?_⟩
  · intro hout
    constructor
    · simp [Logger.SetLevel, hout]
    · simp [Logger.SetLevel, hout, Logger.Output, hng, Logger.Write]
  · intro h0 h5'
    have hin : ¬ (target < 0 ∨ 5 < target) := by omega
    constructor
    · simp [Logger.SetLevel, hin]
    · simp [Logger.SetLevel, hin]
  · intro i hi
    rw [hhand, hhandIf, rangeMap_getD _ _ i hi]
    exact ⟨rfl, rfl⟩

/-- Witness for C8: an out-of-range SetLevel on a concrete logger clamps to
INFO, emits the diagnostic, and activates only the ERROR handle slot as the
table says. -/
theorem set_level_dispatch_witness :
    (Logger.SetLevel ⟨3, [], [], []⟩ 9).level = 3 ∧
    (Logger.SetLevel ⟨3, [], [], []⟩ 9).sink =
      ([] : List String) ++ ["Invalid log level, will use INFO by default.", "\n"] ∧
    (Logger.SetLevel ⟨3, [], [], []⟩ 9).handles.getD 5 HandleKind.inert =
      (if (Logger.SetLevel ⟨3, [], [], []⟩ 9).level ≤ ((5 : Nat) : Int)
        then HandleKind.active (stringifyLevel 5) else HandleKind.inert) := by
  have h := set_level_dispatch ⟨3, [], [], []⟩ 9 (by decide)
  exact ⟨(h.1 (by decide)).1, (h.1 (by decide)).2, (h.2.2 5 (by decide)).1⟩

/-! ParseLevel (C10). -/

/-- Claim C10: ParseLevel is total and case-insensitive through the
upper-casing of its input: an input whose upper-casing equals the table
entry at index i below 6 parses to level i, and any input whose
upper-casing matches no table entry (the empty string included) parses to
INFO (3). -/
theorem parse_level_total :
    ∀ s : String,
      (∀ i : Nat, i < 6 → goToUpper s = Levels.getD i "" → ParseLevel s = i) ∧
      (goToUpper s ∉ Levels → ParseLevel s = 3) := by
  intro s
  constructor
  · intro i hi h
    rw [ParseLevel, h]
    interval_cases i
    · decide
    · decide
    · decide
    · decide
    · decide
    · decide
  · intro h
    simp only [Levels, List.mem_cons, List.not_mem_nil, or_false, not_or] at h
    obtain ⟨n1, n2, n3, n4, n5, n6⟩ := h
    rw [ParseLevel, Levels]
    simp only [parseLoop]
    rw [if_neg (fun hc => n1 hc.symm), if_neg (fun hc => n2 hc.symm),
      if_neg (fun hc => n3 hc.symm), if_neg (fun hc => n4 hc.symm),
      if_neg (fun hc => n5 hc.symm), if_neg (fun hc => n6 hc.symm)]

/-- Witness for C10: a lower-case name parses to its level and a
non-matching name parses to INFO. -/
theorem parse_level_total_witness :
    ParseLevel "warn" = 4 ∧ ParseLevel "" = 3 ∧ ParseLevel "verbose" = 3 := by
  refine ⟨(parse_level_total "warn").1 4 (by decide) (by decide),
    (parse_level_total "").2 (by decide),
    (parse_level_total "verbose").2 (by decide)⟩

/-! String escaping (C6). -/

theorem foldr_quote_last (l : List Char) :
    (l.foldr (fun c acc => quoteEsc c ++ acc) ['"']).getLast? = some '"' := by
  induction l with
  | nil => rfl
  | cons c t ih =>
    show (quoteEsc c ++ t.foldr (fun c acc => quoteEsc c ++ acc) ['"']).getLast? = some '"'
    have hne : t.foldr (fun c acc => quoteEsc c ++ acc) ['"'] ≠ [] := by
      intro he
      rw [he] at ih
      simp at ih
    rw [List.getLast?_append_of_ne_nil _ hne]
    exact ih

theorem goQuote_last (s : String) : (goQuote s).data.getLast? = some '"' := by
  show (['"'] ++ s.data.foldr (fun c acc => quoteEsc c ++ acc) ['"']).getLast? = some '"'
  have hne : s.data.foldr (fun c acc => quoteEsc c ++ acc) ['"'] ≠ [] := by
    intro he
    have := foldr_quote_last s.data
    rw [he] at this
    simp at this
  rw [List.getLast?_append_of_ne_nil _ hne]
  exact foldr_quote_last s.data

/-- Counterexample to claim C6 as stated: the string of an a, a space and a
b is plain printable ASCII, contains no equals sign, no control character
and no non-printable byte, yet the formatter quotes it, because the source
quotes every byte at most the double quote (0x22), space included. -/
theorem escape_string_counterexample :
    (∀ c ∈ "a b".data, 32 ≤ c.toNat ∧ c.toNat ≤ 126 ∧ c ≠ '=') ∧
    escapeString "a b" ≠ "a b" := by
  decide

/-- Claim C6, amended: the quoting trigger is any rune at most the double
quote (0x22, which covers all control characters together with space, the
exclamation mark and the double quote itself), any rune above tilde (0x7E),
or an equals sign.  A string free of these is emitted byte-identical; a
string containing one is emitted as its standard-library quoting, which
starts and ends with a double quote.  In particular any string containing
an equals sign, a control character or a non-printable byte is quoted. -/
theorem escape_string_spec :
    ∀ s : String,
      ((∀ c ∈ s.data, ¬(c ≤ '"' ∨ '~' < c ∨ c = '=')) → escapeString s = s) ∧
      ((∃ c ∈ s.data, c ≤ '"' ∨ '~' < c ∨ c = '=') →
        escapeString s = goQuote s ∧
        (goQuote s).data.head? = some '"' ∧
        (goQuote s).data.getLast? = some '"') ∧
      ((∃ c ∈ s.data, c.toNat < 32 ∨ 126 < c.toNat ∨ c = '=') → escapeString s = goQuote s) := by
  intro s
  have htrig : ∀ c : Char, c.toNat < 32 ∨ 126 < c.toNat ∨ c = '=' →
      (c ≤ '"' ∨ '~' < c ∨ c = '=') := by
    intro c hc
    rcases hc with h | h | h
    · refine Or.inl ?_
      rw [Char.le_def]
      change c.val.val ≤ _
      show c.toNat ≤ 34
      omega
    · refine Or.inr (Or.inl ?_)
      rw [Char.lt_def]
      change _ < c.val.val
      show 126 < c.toNat
      exact h
    · exact Or.inr (Or.inr h)
  refine ⟨?_, ?_, ?_⟩
  · intro h
    have hno : ¬ (s.data.any (fun r => r ≤ '"' ∨ '~' < r ∨ r = '=') = true) := by
      simp only [List.any_eq_true, decide_eq_true_eq]
      rintro ⟨c, hc, hor⟩
      exact h c hc hor
    rw [escapeString, if_neg hno]
  · rintro ⟨c, hc, hor⟩
    have hyes : s.data.any (fun r => r ≤ '"' ∨ '~' < r ∨ r = '=') = true := by
      simp only [List.any_eq_true, decide_eq_true_eq]
      exact ⟨c, hc, hor⟩
    rw [escapeString, if_pos hyes]
    exact ⟨rfl, rfl, goQuote_last s⟩
  · rintro ⟨c, hc, hor⟩
    have hyes : s.data.any (fun r => r ≤ '"' ∨ '~' < r ∨ r = '=') = true := by
      simp only [List.any_eq_true, decide_eq_true_eq]
      exact ⟨c, hc, htrig c hor⟩
    rw [escapeString, if_pos hyes]

/-- Witness for C6: a clean string passes through unchanged and a string
holding an equals sign is quoted. -/
theorem escape_string_spec_witness :
    escapeString "abc" = "abc" ∧ escapeString "a=b" = goQuote "a=b" := by
  refine ⟨(escape_string_spec "abc").1 (by decide), ?_⟩
  exact ((escape_string_spec "a=b").2.1 ⟨'=', by decide, by decide⟩).1

/-! Thousands grouping (C7). -/

theorem digitsLsd_ne_nil (n : Nat) (hn : 0 < n) : digitsLsd n ≠ [] := by
  rw [digitsLsd, dif_neg (by omega)]
  simp

theorem commaGroupK_three (ds : List Char) : commaGroupK ds 3 = commaGroup ds := by
  unfold commaGroupK
  conv_rhs => rw [commaGroup]
  split_ifs with h
  · simp [List.take_of_length_le h]
  · rfl

theorem commaGroupK_cons (d : Char) (ds : List Char) (k : Nat) :
    commaGroupK (d :: ds) (k + 1) = d :: commaGroupK ds k := by
  unfold commaGroupK
  simp only [List.take_succ_cons, List.drop_succ_cons, List.length_cons,
    Nat.add_le_add_iff_right, List.cons_append]

theorem commaGroupK_zero (ds : List Char) (h : ds ≠ []) :
    commaGroupK ds 0 = ',' :: commaGroup ds := by
  unfold commaGroupK
  have hlen : ¬ ds.length ≤ 0 := by
    have := List.length_pos.mpr h
    omega
  simp [hlen]

theorem commaGroupK_nil (k : Nat) : commaGroupK [] k = [] := by
  unfold commaGroupK
  simp

theorem fmtLoop_eq_aux : ∀ (m n comma : Nat) (acc : List Char),
    2 * n + (if comma = 3 then 1 else 0) ≤ m → comma ≤ 3 → 0 < n →
    fmtLoop n comma acc = (commaGroupK (digitsLsd n) (3 - comma)).reverse ++ acc := by
  intro m
  induction m with
  | zero =>
    intro n comma acc hm hc hn
    exfalso
    split_ifs at hm <;> omega
  | succ m ih =>
    intro n comma acc hm hc hn
    rw [fmtLoop, if_pos hn]
    by_cases h3 : comma = 3
    · rw [if_pos h3]
      have hm0 : 2 * n + (if (0 : Nat) = 3 then 1 else 0) ≤ m := by
        rw [if_neg (by decide)]
        rw [h3, if_pos rfl] at hm
        omega
      rw [ih n 0 (',' :: acc) hm0 (by omega) hn]
      rw [show (3 : Nat) - 0 = 3 from rfl, commaGroupK_three]
      subst h3
      rw [show (3 : Nat) - 3 = 0 from rfl]
      rw [commaGroupK_zero _ (digitsLsd_ne_nil n hn)]
      rw [List.reverse_cons]
      simp [List.append_assoc]
    · rw [if_neg h3]
      have hd : digitsLsd n = digitChar (n % 10) :: digitsLsd (n / 10) := by
        rw [digitsLsd, dif_neg (by omega)]
      by_cases h10 : 0 < n / 10
      · have hlt : n / 10 < n := Nat.div_lt_self hn (by decide)
        have hm1 : 2 * (n / 10) + (if comma + 1 = 3 then 1 else 0) ≤ m := by
          rw [if_neg h3] at hm
          split_ifs <;> omega
        rw [ih (n / 10) (comma + 1) _ hm1 (by omega) h10]
        rw [hd]
        have hk : 3 - comma = (3 - (comma + 1)) + 1 := by omega
        rw [hk, commaGroupK_cons]
        rw [List.reverse_cons]
        simp [List.append_assoc]
      · have hz : n / 10 = 0 := by omega
        rw [hz, fmtLoop, if_neg (by omega)]
        rw [hd, hz]
        rw [show digitsLsd 0 = [] from by rw [digitsLsd]; simp]
        obtain ⟨j, hj⟩ : ∃ j, 3 - comma = j + 1 := ⟨2 - comma, by omega⟩
        rw [hj, commaGroupK_cons, commaGroupK_nil]
        simp

theorem fmtLoop_eq (n comma : Nat) (acc : List Char) (hc : comma ≤ 3) (hn : 0 < n) :
    fmtLoop n comma acc = (commaGroupK (digitsLsd n) (3 - comma)).reverse ++ acc :=
  fmtLoop_eq_aux (2 * n + 1) n comma acc (by split_ifs <;> omega) hc hn

theorem fmt_uint_big (n : Nat) (h : 100000 ≤ n) :
    formatLogfmtUint64 n false = groupedNat n ∧
    formatLogfmtUint64 n true = "-" ++ groupedNat n := by
  have hn : 0 < n := by omega
  have hfl : fmtLoop n 0 [] = (commaGroup (digitsLsd n)).reverse := by
    rw [fmtLoop_eq n 0 [] (by omega) hn]
    rw [show (3 : Nat) - 0 = 3 from rfl, commaGroupK_three]
    simp
  constructor
  · rw [formatLogfmtUint64, if_neg (by omega), if_neg Bool.false_ne_true]
    rw [hfl]
    rfl
  · rw [formatLogfmtUint64, if_neg (by omega), if_pos rfl]
    rw [hfl]
    rfl

theorem digitsLsd_no_dash (n : Nat) : ∀ c ∈ digitsLsd n, c ≠ '-' := by
  induction n using Nat.strong_induction_on with
  | _ n ih =>
    by_cases h : n = 0
    · subst h
      rw [show digitsLsd 0 = [] from by rw [digitsLsd]; simp]
      simp
    · rw [digitsLsd, dif_neg h]
      intro c hc
      rcases List.mem_cons.mp hc with rfl | hm
      · have h10 : n % 10 < 10 := Nat.mod_lt _ (by decide)
        rw [digitChar]
        generalize n % 10 = m at h10
        interval_cases m <;> decide
      · exact ih (n / 10) (Nat.div_lt_self (by omega) (by decide)) c hm

theorem bigAux_no_dash :
    ∀ (ds : List Char) (comma : Nat), comma ≤ 3 → (∀ c ∈ ds, c ≠ '-') →
      bigAux ds comma = commaGroupK ds (3 - comma)
  | [], comma, hc, h => by
    rw [show bigAux [] comma = [] from rfl, commaGroupK_nil]
  | d :: ds, comma, hc, h => by
    have hd : d ≠ '-' := h d (by simp)
    rw [bigAux, if_neg hd]
    by_cases h3 : comma = 3
    · rw [if_pos h3]
      rw [bigAux_no_dash ds 1 (by omega) (fun c hc2 => h c (by simp [hc2]))]
      subst h3
      rw [show (3 : Nat) - 3 = 0 from rfl, show (3 : Nat) - 1 = 2 from rfl]
      rw [commaGroupK_zero _ (by simp)]
      rw [← commaGroupK_three (d :: ds)]
      rw [show (3 : Nat) = 2 + 1 from rfl, commaGroupK_cons]
    · rw [if_neg h3]
      rw [bigAux_no_dash ds (comma + 1) (by omega) (fun c hc2 => h c (by simp [hc2]))]
      have hk : 3 - comma = (3 - (comma + 1)) + 1 := by omega
      rw [hk, commaGroupK_cons]

theorem bigAux_dash_end :
    ∀ (ds : List Char) (comma : Nat), (∀ c ∈ ds, c ≠ '-') →
      bigAux (ds ++ ['-']) comma = bigAux ds comma ++ ['-']
  | [], comma, h => by
    rw [List.nil_append]
    rw [show bigAux [] comma = [] from rfl, List.nil_append]
    rw [bigAux, if_pos rfl]
    rfl
  | d :: ds, comma, h => by
    have hd : d ≠ '-' := h d (by simp)
    rw [List.cons_append, bigAux, bigAux, if_neg hd, if_neg hd]
    by_cases h3 : comma = 3
    · rw [if_pos h3, if_pos h3]
      rw [bigAux_dash_end ds 1 (fun c hc2 => h c (by simp [hc2]))]
      simp
    · rw [if_neg h3, if_neg h3]
      rw [bigAux_dash_end ds (comma + 1) (fun c hc2 => h c (by simp [hc2]))]
      simp

/-- Claim C7: the concrete groupings 1,234,567 / -42 / 99999 / 100,000 hold;
magnitudes below 100000 render plain; magnitudes from 100000 up (through
the full uint64 and int64 ranges) render as decimal digits with a separator
every three digits from the right, the sign prefixed afterwards; and the
arbitrary-precision path beyond the 64-bit ranges follows the same grouping
rule. -/
theorem thousands_grouping :
    (FormatLogfmtInt64 1234567 = "1,234,567") ∧
    (FormatLogfmtInt64 (-42) = "-42") ∧
    (FormatLogfmtInt64 99999 = "99999") ∧
    (FormatLogfmtInt64 100000 = "100,000") ∧
    (∀ n : Nat, n < 100000 → FormatLogfmtUint64 n = natStr n) ∧
    (∀ n : Nat, 100000 ≤ n → n < 2 ^ 64 → FormatLogfmtUint64 n = groupedNat n) ∧
    (∀ i : Int, -(2 ^ 63) ≤ i → i ≤ -100000 →
      FormatLogfmtInt64 i = "-" ++ groupedNat i.natAbs) ∧
    (∀ i : Int, -100000 < i → i < 0 → FormatLogfmtInt64 i = "-" ++ natStr i.natAbs) ∧
    (∀ i : Int, 2 ^ 64 ≤ i → formatLogfmtBigInt i = groupedNat i.natAbs) ∧
    (∀ i : Int, i < -(2 ^ 63) → formatLogfmtBigInt i = "-" ++ groupedNat i.natAbs) := by
  refine ⟨?_, ?_, ?_, ?_, ?_, ?_, ?_, ?_, ?_, ?_⟩
  · simp [FormatLogfmtInt64, formatLogfmtUint64, fmtLoop, digitChar, intStr, natStr, digitsLsd]
  · simp [FormatLogfmtInt64, formatLogfmtUint64, fmtLoop, digitChar, intStr, natStr, digitsLsd]
  · simp [FormatLogfmtInt64, formatLogfmtUint64, fmtLoop, digitChar, intStr, natStr, digitsLsd]
  · simp [FormatLogfmtInt64, formatLogfmtUint64, fmtLoop, digitChar, intStr, natStr, digitsLsd]
  · intro n h
    rw [FormatLogfmtUint64, formatLogfmtUint64, if_pos h, if_neg Bool.false_ne_true]
    rw [intStr, if_neg (by omega)]
    simp
  · intro n h _
    exact (fmt_uint_big n h).1
  · intro i h1 h2
    have hna : 100000 ≤ i.natAbs := by omega
    rw [FormatLogfmtInt64, if_pos (by omega)]
    exact (fmt_uint_big i.natAbs hna).2
  · intro i h1 h2
    have hna : i.natAbs < 100000 := by omega
    have hpos : 0 < i.natAbs := by omega
    rw [FormatLogfmtInt64, if_pos h2]
    rw [formatLogfmtUint64, if_pos hna, if_pos rfl]
    rw [intStr, if_pos (by omega)]
    simp
    rw [Int.natAbs_abs]
  · intro i h
    have h0 : ¬ (0 ≤ i ∧ i < 2 ^ 64) := by omega
    have h1 : ¬ (-(2 ^ 63) ≤ i ∧ i < 2 ^ 63) := by omega
    rw [formatLogfmtBigInt, if_neg h0, if_neg h1]
    have hga : 0 < i.natAbs := by omega
    rw [intStr, if_neg (by omega), natStr, if_neg (by omega)]
    show String.mk _ = _
    rw [List.reverse_reverse]
    rw [bigAux_no_dash (digitsLsd i.natAbs) 0 (by omega) (digitsLsd_no_dash i.natAbs)]
    rw [show (3 : Nat) - 0 = 3 from rfl, commaGroupK_three]
    rfl
  · intro i h
    have h0 : ¬ (0 ≤ i ∧ i < 2 ^ 64) := by omega
    have h1 : ¬ (-(2 ^ 63) ≤ i ∧ i < 2 ^ 63) := by omega
    rw [formatLogfmtBigInt, if_neg h0, if_neg h1]
    have hga : 0 < i.natAbs := by omega
    rw [intStr, if_pos (by omega), natStr, if_neg (by omega)]
    have hdata : ("-" ++ (⟨(digitsLsd i.natAbs).reverse⟩ : String)).data =
        '-' :: (digitsLsd i.natAbs).reverse := by
      rw [String.data_append]
      rfl
    rw [hdata, List.reverse_cons, List.reverse_reverse]
    rw [bigAux_dash_end (digitsLsd i.natAbs) 0 (digitsLsd_no_dash i.natAbs)]
    rw [bigAux_no_dash (digitsLsd i.natAbs) 0 (by omega) (digitsLsd_no_dash i.natAbs)]
    rw [show (3 : Nat) - 0 = 3 from rfl, commaGroupK_three]
    rw [List.reverse_append]
    rfl

/-- Witness for C7: the general arms applied to concrete magnitudes in each
range. -/
theorem thousands_grouping_witness :
    FormatLogfmtUint64 7 = natStr 7 ∧
    FormatLogfmtUint64 123456 = groupedNat 123456 ∧
    FormatLogfmtInt64 (-123456) = "-" ++ groupedNat (-123456 : Int).natAbs ∧
    formatLogfmtBigInt 100000000000000000000 = groupedNat (100000000000000000000 : Int).natAbs := by
  refine ⟨thousands_grouping.2.2.2.2.1 7 (by norm_num),
    thousands_grouping.2.2.2.2.2.1 123456 (by norm_num) (by norm_num),
    thousands_grouping.2.2.2.2.2.2.1 (-123456) (by norm_num) (by norm_num),
    thousands_grouping.2.2.2.2.2.2.2.2.1 100000000000000000000 (by norm_num)⟩
